import Mathlib

/-!
Shallow embedding of the Mancala rules engine from
src/open_spiel/games/mancala.cc, together with theorems checking the
natural-language specification against it.

The board is a ring of 14 pits (`kTotalPits`), each holding an `Int`
bean count (the C++ board stores machine `int`s; the counts are kept as
integers so that non-negativity is a real property, not a typing
artifact).  Pit 0 is player 1's store, pit 7 is player 0's store,
pits 1..6 are player 0's row pits and pits 8..13 are player 1's row pits.
-/

namespace Mancala

/-- Modelled from the spec: the header mancala.h (not part of the sources
given) fixes the board as a ring of 14 pits. -/
def kTotalPits : Nat := 14

/-- Modelled from the spec: the header mancala.h fixes 6 row pits per
player. -/
def kNumPits : Nat := 6

/-- Ring position for a natural index, reducing modulo the 14 pits. -/
def ringPit (k : Nat) : Fin 14 :=
  ⟨k % 14, Nat.mod_lt _ (by norm_num)⟩

/-- Game state: the board array, the player to move, and the move counter,
as held by MancalaState.  The `history` and `move_number` fields are
modelled from the spec: they live in the framework base class State
(not part of the sources given); `history` records applied actions and
`move_number` mirrors the framework move counter. -/
structure MancalaState where
  board : Fin 14 → Int
  current_player : Int
  num_moves : Int
  history : List Int
  move_number : Int

/-- Embedding of MancalaState::GetPlayerHomePit: 7 (= kTotalPits / 2) for
player 0, otherwise 0. -/
def GetPlayerHomePit (player : Int) : Int :=
  if player = 0 then (kTotalPits : Int) / 2 else 0

/-- Embedding of MancalaState::InitBoard: every pit 4 beans, then pit 0 and
pit 7 (= board size / 2) reset to 0. -/
def InitBoard : Fin 14 → Int :=
  Function.update (Function.update (fun _ => 4) (ringPit 0) 0) (ringPit 7) 0

/-- The state constructed by MancalaState::MancalaState: the initial board,
player 0 to move, no moves played. -/
def initialState : MancalaState :=
  { board := InitBoard
    current_player := 0
    num_moves := 0
    history := []
    move_number := 0 }

/-- One step of the sowing loop body: board_[pos]++. -/
def bump (b : Fin 14 → Int) (pos : Fin 14) : Fin 14 → Int :=
  Function.update b pos (b pos + 1)

/-- The sowing loop of DoApplyAction: for each i in the list, increment the
pit at ring position (move + i + 1) % 14. -/
def sowList (move : Nat) (l : List Nat) (b : Fin 14 → Int) : Fin 14 → Int :=
  l.foldl (fun bb i => bump bb (ringPit (move + i + 1))) b

/-- Embedding of MancalaState::DoApplyAction: read the bean count of the
chosen pit, zero it, sow one bean into each of the following
`num_beans` ring positions, toggle the player unless the landing
position (move + num_beans) % kTotalPits is the mover's home pit, and
increment the move counter.  The C++ loop runs zero times when the
count is not positive, hence `Int.toNat`; the C++ `%` on `int` is
truncated division, hence `Int.tmod`. -/
def DoApplyAction (s : MancalaState) (move : Fin 14) : MancalaState :=
  let num_beans : Int := s.board move
  let b := sowList move.val (List.range num_beans.toNat)
      (Function.update s.board move 0)
  { s with
    board := b
    current_player :=
      if ((move.val : Int) + num_beans).tmod (kTotalPits : Int) ≠
          GetPlayerHomePit s.current_player
      then 1 - s.current_player else s.current_player
    num_moves := s.num_moves + 1 }

/-- Embedding of MancalaState::IsTerminal: player 1 has moves iff some pit
board_[13 - i] (i < 6) is positive; player 0 has moves iff some pit
board_[i + 1] (i < 6) is positive; the state is terminal iff at least
one of the two players has no moves. -/
def IsTerminal (s : MancalaState) : Bool :=
  let player_1_has_moves :=
    (List.range kNumPits).any (fun i => decide (0 < s.board (ringPit (13 - i))))
  let player_0_has_moves :=
    (List.range kNumPits).any (fun i => decide (0 < s.board (ringPit (i + 1))))
  !player_0_has_moves || !player_1_has_moves

/-- Embedding of MancalaState::LegalActions: empty for a terminal state;
for player 0 the loop pushes i + 1 (i = 0..5) when that pit is
non-empty; for any other player it pushes 13 - i (i = 0..5) when that
pit is non-empty. -/
def LegalActions (s : MancalaState) : List Nat :=
  if IsTerminal s then []
  else if s.current_player = 0 then
    (List.range kNumPits).filterMap
      (fun i => if 0 < s.board (ringPit (i + 1)) then some (i + 1) else none)
  else
    (List.range kNumPits).filterMap
      (fun i => if 0 < s.board (ringPit (13 - i)) then some (13 - i) else none)

/-- Embedding of MancalaState::Returns: player 0's sum is over pits 1..7,
player 1's sum is over pits 8..13 plus pit 0; the result is the
normalized zero-sum pair.  The accumulations follow the iterator ranges
[begin+1, begin+8) and [begin+8, end) of the source. -/
def Returns (s : MancalaState) : Int × Int :=
  let player_0_bean_sum :=
    (List.range 7).foldl (fun acc i => acc + s.board (ringPit (1 + i))) 0
  let player_1_bean_sum :=
    ((List.range 6).foldl (fun acc i => acc + s.board (ringPit (8 + i))) 0)
      + s.board (ringPit 0)
  if player_0_bean_sum > player_1_bean_sum then (1, -1)
  else if player_0_bean_sum < player_1_bean_sum then (-1, 1)
  else (0, 0)

/-- Embedding of MancalaState::UndoAction: decrement num_moves, pop the
last history entry, decrement move_number; the board and the player to
move are not touched. -/
def UndoAction (s : MancalaState) (player : Int) (move : Int) : MancalaState :=
  { s with
    num_moves := s.num_moves - 1
    history := s.history.dropLast
    move_number := s.move_number - 1 }

/-- States reachable from the initial state by applying legal actions. -/
inductive Reachable : MancalaState → Prop
  | init : Reachable initialState
  | step (s : MancalaState) (a : Nat) (hs : Reachable s)
      (ha : a ∈ LegalActions s) : Reachable (DoApplyAction s (ringPit a))

/-! ### Helper lemmas about the embedding -/

lemma ringPit_val (k : Nat) : (ringPit k).val = k % 14 := rfl

lemma ringPit_of_fin (q : Fin 14) : ringPit q.val = q :=
  Fin.ext (Nat.mod_eq_of_lt q.isLt)

lemma DoApplyAction_board_def (s : MancalaState) (p : Fin 14) :
    (DoApplyAction s p).board =
      sowList p.val (List.range (s.board p).toNat) (Function.update s.board p 0) :=
  rfl

lemma DoApplyAction_num_moves (s : MancalaState) (p : Fin 14) :
    (DoApplyAction s p).num_moves = s.num_moves + 1 :=
  rfl

lemma DoApplyAction_player_def (s : MancalaState) (p : Fin 14) :
    (DoApplyAction s p).current_player =
      if ((p.val : Int) + s.board p).tmod (kTotalPits : Int) ≠
          GetPlayerHomePit s.current_player
      then 1 - s.current_player else s.current_player :=
  rfl

lemma bump_apply (b : Fin 14 → Int) (pos q : Fin 14) :
    bump b pos q = b q + (if q = pos then 1 else 0) := by
  rcases eq_or_ne q pos with rfl | hq
  · simp [bump]
  · simp [bump, Function.update_apply, hq]

lemma sowList_cons (a i : Nat) (t : List Nat) (b : Fin 14 → Int) :
    sowList a (i :: t) b = sowList a t (bump b (ringPit (a + i + 1))) :=
  rfl

lemma sowList_apply (a : Nat) (l : List Nat) (b : Fin 14 → Int) (q : Fin 14) :
    sowList a l b q =
      b q + ((l.filter (fun i => decide ((a + i + 1) % 14 = q.val))).length : Int) := by
  induction l generalizing b with
  | nil => simp [sowList]
  | cons i t ih =>
      rw [sowList_cons, ih, bump_apply, List.filter_cons]
      by_cases hc : (a + i + 1) % 14 = q.val
      · have hq : q = ringPit (a + i + 1) := Fin.ext (by rw [ringPit_val, hc])
        simp [hc, hq]
        ring
      · have hq : q ≠ ringPit (a + i + 1) := fun hqq => hc (by rw [hqq]; rfl)
        simp [hc, hq]

lemma sum_update (b : Fin 14 → Int) (p : Fin 14) (v : Int) :
    ∑ q, Function.update b p v q = (∑ q, b q) - b p + v := by
  rw [Finset.sum_update_of_mem (Finset.mem_univ p) b v,
    Finset.sdiff_singleton_eq_erase, Finset.sum_erase_eq_sub (Finset.mem_univ p)]
  ring

lemma sum_bump (b : Fin 14 → Int) (p : Fin 14) :
    ∑ q, bump b p q = (∑ q, b q) + 1 := by
  rw [show bump b p = Function.update b p (b p + 1) from rfl, sum_update]
  ring

lemma sowList_sum (a : Nat) (l : List Nat) (b : Fin 14 → Int) :
    ∑ q, sowList a l b q = (∑ q, b q) + l.length := by
  induction l generalizing b with
  | nil => simp [sowList]
  | cons i t ih =>
      rw [sowList_cons, ih, sum_bump, List.length_cons]
      push_cast
      ring

lemma sowList_nonneg (a : Nat) (l : List Nat) (b : Fin 14 → Int)
    (h : ∀ q, 0 ≤ b q) : ∀ q, 0 ≤ sowList a l b q := by
  intro q
  rw [sowList_apply]
  have := h q
  positivity

lemma foldl_range7_eq_sum_Icc (f : Nat → Int) :
    (List.range 7).foldl (fun acc i => acc + f (1 + i)) 0 =
      ∑ i ∈ Finset.Icc 1 7, f i := by
  rw [show Finset.Icc (1 : ℕ) 7 = Finset.Ico 1 8 from (Nat.Ico_succ_right 1 7).symm,
    Finset.sum_Ico_eq_sum_range]
  norm_num
  rw [show (List.range 7) = [0, 1, 2, 3, 4, 5, 6] from rfl]
  simp [Finset.sum_range_succ, List.foldl_cons]

lemma foldl_range6_eq_sum_Icc (f : Nat → Int) :
    (List.range 6).foldl (fun acc i => acc + f (8 + i)) 0 =
      ∑ i ∈ Finset.Icc 8 13, f i := by
  rw [show Finset.Icc (8 : ℕ) 13 = Finset.Ico 8 14 from (Nat.Ico_succ_right 8 13).symm,
    Finset.sum_Ico_eq_sum_range]
  norm_num
  rw [show (List.range 6) = [0, 1, 2, 3, 4, 5] from rfl]
  simp [Finset.sum_range_succ, List.foldl_cons]

/-- Score of player 0 as the spec words it: the beans in pits 1..7. -/
def score0 (s : MancalaState) : Int :=
  ∑ i ∈ Finset.Icc 1 7, s.board (ringPit i)

/-- Score of player 1 as the spec words it: the beans in pits 8..13 plus
the beans in pit 0. -/
def score1 (s : MancalaState) : Int :=
  (∑ i ∈ Finset.Icc 8 13, s.board (ringPit i)) + s.board (ringPit 0)

lemma Returns_eq (s : MancalaState) :
    Returns s =
      if score1 s < score0 s then (1, -1)
      else if score0 s < score1 s then (-1, 1)
      else (0, 0) := by
  have h0 : (List.range 7).foldl (fun acc i => acc + s.board (ringPit (1 + i))) 0 =
      score0 s := foldl_range7_eq_sum_Icc (fun i => s.board (ringPit i))
  have h1 : (List.range 6).foldl (fun acc i => acc + s.board (ringPit (8 + i))) 0 =
      ∑ i ∈ Finset.Icc 8 13, s.board (ringPit i) :=
    foldl_range6_eq_sum_Icc (fun i => s.board (ringPit i))
  simp only [Returns, h0, h1, score1, gt_iff_lt]

lemma DoApplyAction_preserves (s : MancalaState) (p : Fin 14)
    (h : (∑ q, s.board q) = 48 ∧ ∀ q, 0 ≤ s.board q) :
    (∑ q, (DoApplyAction s p).board q) = 48 ∧ ∀ q, 0 ≤ (DoApplyAction s p).board q := by
  obtain ⟨hsum, hpos⟩ := h
  constructor
  · rw [DoApplyAction_board_def, sowList_sum, sum_update, List.length_range,
      Int.toNat_of_nonneg (hpos p)]
    omega
  · intro q
    rw [DoApplyAction_board_def]
    refine sowList_nonneg _ _ _ ?_ q
    intro r
    rw [Function.update_apply]
    split
    · exact le_refl 0
    · exact hpos r

/-! ### Claims -/

/-- C1: for every state reachable from the initial state by applying legal
actions, the sum of all 14 pit counts equals 48 and every pit count is
non-negative; moreover DoApplyAction preserves both properties. -/
theorem bean_conservation_C1 :
    (∀ s, Reachable s → (∑ q, s.board q) = 48 ∧ ∀ q, 0 ≤ s.board q) ∧
    (∀ (s : MancalaState) (p : Fin 14),
      ((∑ q, s.board q) = 48 ∧ ∀ q, 0 ≤ s.board q) →
      (∑ q, (DoApplyAction s p).board q) = 48 ∧ ∀ q, 0 ≤ (DoApplyAction s p).board q) := by
  have reach : ∀ s, Reachable s → (∑ q, s.board q) = 48 ∧ ∀ q, 0 ≤ s.board q := by
    intro s hs
    induction hs with
    | init => exact ⟨by decide, by decide⟩
    | step t a ht ha ih => exact DoApplyAction_preserves t (ringPit a) ih
  exact ⟨reach, DoApplyAction_preserves⟩

/-- Witness for C1 at the initial state. -/
theorem bean_conservation_C1_witness :
    (∑ q, initialState.board q) = 48 ∧ 0 ≤ initialState.board (ringPit 5) :=
  ⟨(bean_conservation_C1.1 initialState Reachable.init).1,
   (bean_conservation_C1.1 initialState Reachable.init).2 (ringPit 5)⟩

/-- C2: applying an action at pit p with n = beans at p sets pit p to 0 and
increments the pit at ring position (p + i + 1) mod 14 for every
i in 0..n-1; every ring position, stores included, can receive a bean. -/
theorem sowing_C2 (s : MancalaState) (p q : Fin 14) :
    (DoApplyAction s p).board q =
      (if q = p then 0 else s.board q) +
        (((List.range (s.board p).toNat).filter
            (fun i => decide ((p.val + i + 1) % 14 = q.val))).length : Int) := by
  rw [DoApplyAction_board_def, sowList_apply, Function.update_apply]

/-- C3: the home pit is 7 for player 0 and 0 for player 1; after sowing the
n beans of pit p, the same player stays to move exactly when the landing
position (p + n) mod 14 is the mover's home pit, otherwise the player
toggles; the move counter is incremented in both cases. -/
theorem turn_continuation_C3 :
    GetPlayerHomePit 0 = 7 ∧ GetPlayerHomePit 1 = 0 ∧
    ∀ (s : MancalaState) (p : Fin 14), 0 ≤ s.board p →
      (DoApplyAction s p).current_player =
        (if (((p.val + (s.board p).toNat) % 14 : Nat) : Int) =
            GetPlayerHomePit s.current_player
         then s.current_player else 1 - s.current_player) ∧
      (DoApplyAction s p).num_moves = s.num_moves + 1 := by
  refine ⟨by decide, by decide, ?_⟩
  intro s p hb
  have h1 : (p.val : Int) + s.board p = ((p.val + (s.board p).toNat : Nat) : Int) := by
    push_cast [Int.toNat_of_nonneg hb]
    ring
  have key : ((p.val : Int) + s.board p).tmod (kTotalPits : Int) =
      (((p.val + (s.board p).toNat) % 14 : Nat) : Int) := by
    rw [h1, show (kTotalPits : Int) = ((14 : Nat) : Int) from rfl, Int.ofNat_tmod]
  constructor
  · rw [DoApplyAction_player_def, key]
    by_cases hl : (((p.val + (s.board p).toNat) % 14 : Nat) : Int) =
        GetPlayerHomePit s.current_player
    · simp [hl]
    · simp [hl]
  · exact DoApplyAction_num_moves s p

lemma legalFilterMap (P : Nat → Prop) [DecidablePred P] (g : Nat → Nat) (l : List Nat) :
    l.filterMap (fun i => if P (g i) then some (g i) else none) =
      (l.map g).filter (fun j => decide (P j)) := by
  induction l with
  | nil => rfl
  | cons a t ih =>
      by_cases h : P (g a) <;>
        simp [List.filterMap_cons, List.map_cons, List.filter_cons, h, ih]

/-- A board position with the initial board but player 1 to move. -/
def stateP1 : MancalaState := { initialState with current_player := 1 }

/-- Counterexample to C4: with the initial board and player 1 to move, the
legal actions come out as 13, 12, ..., 8 — decreasing, not increasing,
index order. -/
theorem legal_order_C4_cex :
    LegalActions stateP1 = [13, 12, 11, 10, 9, 8] ∧
    LegalActions stateP1 ≠ [8, 9, 10, 11, 12, 13] := by decide

/-- C4 (amended): for a non-terminal state, LegalActions returns exactly the
indices among player 0's pits 1..6 with bean count greater than 0 in
increasing index order when player 0 is to move, and exactly the indices
among player 1's pits 8..13 with bean count greater than 0 in DECREASING
index order otherwise. -/
theorem legal_order_C4 (s : MancalaState) (h : IsTerminal s = false) :
    (s.current_player = 0 →
      LegalActions s =
        [1, 2, 3, 4, 5, 6].filter (fun a => decide (0 < s.board (ringPit a)))) ∧
    (s.current_player ≠ 0 →
      LegalActions s =
        [13, 12, 11, 10, 9, 8].filter (fun a => decide (0 < s.board (ringPit a)))) := by
  constructor
  · intro hcp
    simp only [LegalActions, h, Bool.false_eq_true, if_false, hcp, if_pos]
    rw [show List.range kNumPits = [0, 1, 2, 3, 4, 5] from rfl,
      show (fun (i : Nat) => if 0 < s.board (ringPit (i + 1)) then some (i + 1) else none) =
        (fun (i : Nat) => if (fun j => 0 < s.board (ringPit j)) ((fun (i : Nat) => i + 1) i)
          then some ((fun (i : Nat) => i + 1) i) else none) from rfl,
      legalFilterMap (fun j => 0 < s.board (ringPit j)) (fun i => i + 1)]
    rfl
  · intro hcp
    simp only [LegalActions, h, Bool.false_eq_true, if_false, if_neg hcp]
    rw [show List.range kNumPits = [0, 1, 2, 3, 4, 5] from rfl,
      show (fun (i : Nat) => if 0 < s.board (ringPit (13 - i)) then some (13 - i) else none) =
        (fun (i : Nat) => if (fun j => 0 < s.board (ringPit j)) ((fun (i : Nat) => 13 - i) i)
          then some ((fun (i : Nat) => 13 - i) i) else none) from rfl,
      legalFilterMap (fun j => 0 < s.board (ringPit j)) (fun i => 13 - i)]
    rfl

/-- Witness for C4 at the initial board with player 1 to move. -/
theorem legal_order_C4_witness :
    LegalActions stateP1 =
      [13, 12, 11, 10, 9, 8].filter (fun a => decide (0 < stateP1.board (ringPit a))) :=
  (legal_order_C4 stateP1 (by decide)).2 (by decide)

/-- Witness for C3: from the initial state, action 3 sows 4 beans, lands in
pit 7 (player 0's home), so player 0 moves again. -/
theorem turn_continuation_C3_witness :
    (DoApplyAction initialState (ringPit 3)).current_player =
      (if ((((ringPit 3).val + (initialState.board (ringPit 3)).toNat) % 14 : Nat) : Int) =
          GetPlayerHomePit initialState.current_player
       then initialState.current_player else 1 - initialState.current_player) :=
  (turn_continuation_C3.2.2 initialState (ringPit 3) (by decide)).1

/-- C5: IsTerminal is true if and only if all six of player 0's row pits
(indices 1..6) are empty or all six of player 1's row pits (indices
8..13) are empty, for any board of non-negative pit counts. -/
theorem terminal_C5 (s : MancalaState) (h : ∀ q, 0 ≤ s.board q) :
    IsTerminal s = true ↔
      (∀ q : Fin 14, 1 ≤ q.val → q.val ≤ 6 → s.board q = 0) ∨
      (∀ q : Fin 14, 8 ≤ q.val → q.val ≤ 13 → s.board q = 0) := by
  have hiff : IsTerminal s = true ↔
      (∀ i < 6, ¬ 0 < s.board (ringPit (i + 1))) ∨
      (∀ i < 6, ¬ 0 < s.board (ringPit (13 - i))) := by
    simp [IsTerminal, kNumPits, List.any_eq_true, List.mem_range, or_comm]
  rw [hiff]
  constructor
  · rintro (h0 | h1)
    · left
      intro q hq1 hq6
      have key := h0 (q.val - 1) (by omega)
      have hq : ringPit (q.val - 1 + 1) = q := by
        apply Fin.ext
        rw [ringPit_val]
        omega
      rw [hq] at key
      have := h q
      omega
    · right
      intro q hq8 hq13
      have key := h1 (13 - q.val) (by omega)
      have hq : ringPit (13 - (13 - q.val)) = q := by
        apply Fin.ext
        rw [ringPit_val]
        omega
      rw [hq] at key
      have := h q
      omega
  · rintro (h0 | h1)
    · left
      intro i hi
      have key := h0 (ringPit (i + 1)) (by rw [ringPit_val]; omega)
        (by rw [ringPit_val]; omega)
      omega
    · right
      intro i hi
      have key := h1 (ringPit (13 - i)) (by rw [ringPit_val]; omega)
        (by rw [ringPit_val]; omega)
      omega

/-- A terminal board: player 1's row is exhausted, player 0 still holds a
bean in pit 3. -/
def tState5 : MancalaState :=
  { board := fun q => if q.val = 3 then 5 else if q.val = 7 then 43 else 0
    current_player := 1
    num_moves := 11
    history := []
    move_number := 11 }

/-- Witness for C5: exhausting player 1's row makes the state terminal. -/
theorem terminal_C5_witness : IsTerminal tState5 = true :=
  (terminal_C5 tState5 (by decide)).mpr (Or.inr (by decide))

/-- C6: on every terminal state, Returns is (1, -1) when score0 exceeds
score1, (-1, 1) when score1 exceeds score0, (0, 0) when equal, and never
any other pair, where score0 sums pits 1..7 and score1 sums pits 8..13
plus pit 0. -/
theorem scoring_C6 (s : MancalaState) (h : IsTerminal s = true) :
    (Returns s = (1, -1) ∨ Returns s = (-1, 1) ∨ Returns s = (0, 0)) ∧
    (score1 s < score0 s → Returns s = (1, -1)) ∧
    (score0 s < score1 s → Returns s = (-1, 1)) ∧
    (score0 s = score1 s → Returns s = (0, 0)) := by
  rw [Returns_eq]
  rcases lt_trichotomy (score0 s) (score1 s) with hlt | heq | hgt
  · refine ⟨Or.inr (Or.inl ?_), ?_, ?_, ?_⟩ <;>
      simp [hlt, not_lt.mpr (le_of_lt hlt)] <;> omega
  · refine ⟨Or.inr (Or.inr (by simp [heq])), ?_, ?_, ?_⟩
    · intro hx
      exact absurd hx (by omega)
    · intro hx
      exact absurd hx (by omega)
    · intro hx
      simp [heq]
  · refine ⟨Or.inl ?_, ?_, ?_, ?_⟩ <;>
      simp [hgt, not_lt.mpr (le_of_lt hgt)] <;> omega

/-- A terminal board whose score0 is 30 against score1 = 18. -/
def tState6 : MancalaState :=
  { board := fun q => if q.val = 7 then 30 else if q.val = 0 then 18 else 0
    current_player := 0
    num_moves := 20
    history := []
    move_number := 20 }

/-- Witness for C6: the 30-versus-18 terminal board yields (1, -1). -/
theorem scoring_C6_witness : Returns tState6 = (1, -1) :=
  (scoring_C6 tState6 (by decide)).2.1 (by decide)

/-- C7: every terminal state has no legal actions, whatever beans remain on
the non-exhausted side. -/
theorem terminal_shortcircuit_C7 (s : MancalaState) (h : IsTerminal s = true) :
    LegalActions s = [] := by
  simp [LegalActions, h]

/-- A terminal state in which the non-exhausted player 1 still has a
non-empty row pit. -/
def tState7 : MancalaState :=
  { board := fun q => if q.val = 13 then 7 else if q.val = 0 then 41 else 0
    current_player := 1
    num_moves := 9
    history := []
    move_number := 9 }

/-- Witness for C7: no legal actions even though pit 13 is non-empty. -/
theorem terminal_shortcircuit_C7_witness :
    LegalActions tState7 = [] ∧ 0 < tState7.board (ringPit 13) :=
  ⟨terminal_shortcircuit_C7 tState7 (by decide), by decide⟩

/-- C8: UndoAction decrements the move counter (and the framework move
number), pops the most recent history entry, and leaves the board and
the player to move unchanged. -/
theorem undo_partial_C8 (s : MancalaState) (player move : Int) :
    (UndoAction s player move).board = s.board ∧
    (UndoAction s player move).current_player = s.current_player ∧
    (UndoAction s player move).num_moves = s.num_moves - 1 ∧
    (UndoAction s player move).move_number = s.move_number - 1 ∧
    ∀ (rest : List Int) (a : Int), s.history = rest ++ [a] →
      (UndoAction s player move).history = rest := by
  refine ⟨rfl, rfl, rfl, rfl, ?_⟩
  intro rest a hh
  show s.history.dropLast = rest
  rw [hh, List.dropLast_concat]

/-- A state with one recorded action in its history. -/
def undoState : MancalaState := { initialState with history := [3] }

/-- Witness for C8: undoing on a one-entry history empties it and keeps the
board. -/
theorem undo_partial_C8_witness :
    (UndoAction undoState 0 3).history = [] ∧
    (UndoAction undoState 0 3).board = undoState.board :=
  ⟨(undo_partial_C8 undoState 0 3).2.2.2.2 [] 3 rfl, (undo_partial_C8 undoState 0 3).1⟩

/-- C9: applying an action at an empty pit leaves every pit unchanged,
increments the move counter, and toggles the player unless the chosen
pit is the mover's home pit. -/
theorem empty_pit_C9 (s : MancalaState) (p : Fin 14) (h : s.board p = 0) :
    (DoApplyAction s p).board = s.board ∧
    (DoApplyAction s p).num_moves = s.num_moves + 1 ∧
    (DoApplyAction s p).current_player =
      (if (p.val : Int) = GetPlayerHomePit s.current_player
       then s.current_player else 1 - s.current_player) := by
  refine ⟨?_, DoApplyAction_num_moves s p, ?_⟩
  · rw [DoApplyAction_board_def, h]
    show Function.update s.board p 0 = s.board
    rw [← h, Function.update_eq_self]
  · rw [DoApplyAction_player_def, h]
    have hp : ((p.val : Int) + 0).tmod (kTotalPits : Int) = (p.val : Int) := by
      rw [add_zero, show (kTotalPits : Int) = ((14 : Nat) : Int) from rfl, ← Int.ofNat_tmod]
      norm_num [Nat.mod_eq_of_lt p.isLt]
    rw [hp]
    by_cases hl : (p.val : Int) = GetPlayerHomePit s.current_player
    · simp [hl]
    · simp [hl]

/-- Witness for C9: sowing from the empty store pit 0 of the initial state
changes no pit and passes the turn (0 is not player 0's home pit). -/
theorem empty_pit_C9_witness :
    (DoApplyAction initialState (ringPit 0)).board = initialState.board ∧
    (DoApplyAction initialState (ringPit 0)).current_player =
      (if ((ringPit 0).val : Int) = GetPlayerHomePit initialState.current_player
       then initialState.current_player else 1 - initialState.current_player) :=
  ⟨(empty_pit_C9 initialState (ringPit 0) (by decide)).1,
   (empty_pit_C9 initialState (ringPit 0) (by decide)).2.2⟩

/-- C10: Returns is total — on every state, terminal or not, it computes the
zero-sum pair determined by comparing score0 with score1, and the pair
is always one of (1, -1), (-1, 1), (0, 0). -/
theorem returns_total_C10 (s : MancalaState) :
    Returns s =
      (if score1 s < score0 s then (1, -1)
       else if score0 s < score1 s then (-1, 1)
       else (0, 0)) ∧
    (Returns s).1 + (Returns s).2 = 0 ∧
    (Returns s = (1, -1) ∨ Returns s = (-1, 1) ∨ Returns s = (0, 0)) := by
  refine ⟨Returns_eq s, ?_, ?_⟩ <;> rw [Returns_eq] <;> split_ifs <;> simp

end Mancala
